import Mathlib

/-!
Verification of the FTC Dashboard configurable layout and graph renderer.

The definitions below are shallow embeddings of the TypeScript/JavaScript
source files:
* `ConfigurableLayout.tsx` — the undo/redo history reducer
  (`stateHistoryReducer`) and the `addItem` auto-placement routine;
* the second revision of the same component (an unnamed source file) — an
  `addItem` variant with a collision-refinement step (`maxArray`,
  `intervalsIntersect`);
* `GraphView/Graph.js` — the time-series graph engine (`niceNum`,
  `getAxisScaling`, `Graph.add`, `Graph.getYAxisScaling`, `Graph.render`).

JavaScript numbers are embedded as exact rationals; where NaN participates
in the source's control flow (sample timestamps and the clock anchor), the
type `JVal` models a JS number that is either NaN or a rational, with JS
comparison semantics (every comparison against NaN is false) and NaN-absorbing
arithmetic.  Grid coordinates are integers, as required of grid cells.
-/

/-! ### History reducer (`ConfigurableLayout.tsx`, `stateHistoryReducer`) -/

inductive StateHistoryCommand where
  | APPEND : StateHistoryCommand
  | UNDO : StateHistoryCommand
  | REDO : StateHistoryCommand
deriving DecidableEq, Repr

inductive StateHistoryAction (α : Type) where
  | APPEND (payload : α) : StateHistoryAction α
  | UNDO : StateHistoryAction α
  | REDO : StateHistoryAction α

structure StateHistoryReducerState (α : Type) where
  gridStateHistory : List α
  actionHistory : List StateHistoryCommand
  currentHistoryPosition : ℤ
  currentHead : α
deriving DecidableEq, Repr

/-- JS array indexing `l[i]`: `some` element when `0 ≤ i < length`,
`none` (undefined) otherwise. -/
def listGet? {α : Type} (l : List α) (i : ℤ) : Option α :=
  if 0 ≤ i then l.get? i.toNat else none

/-- Last element of the `actionHistory` array is `UNDO` or `REDO`
(`state.actionHistory[state.actionHistory.length - 1] === UNDO || ... === REDO`;
on an empty array the JS index yields undefined and both tests are false). -/
def isUndoRedo : Option StateHistoryCommand → Bool
  | some StateHistoryCommand.UNDO => true
  | some StateHistoryCommand.REDO => true
  | _ => false

/-- The `shouldAppend` computation of the APPEND branch of
`stateHistoryReducer`: append unless the payload deep-equals the snapshot at
the cursor, or the previous action was UNDO/REDO and the payload deep-equals
the current head. -/
def shouldAppend {α : Type} [DecidableEq α] (state : StateHistoryReducerState α)
    (payload : α) : Bool :=
  if state.gridStateHistory.length = 0 then true
  else
    let headEq : Bool :=
      match listGet? state.gridStateHistory state.currentHistoryPosition with
      | some s => decide (s = payload)
      | none => false
    let afterUndoRedoEq : Bool :=
      isUndoRedo state.actionHistory.getLast? && decide (state.currentHead = payload)
    !headEq && !afterUndoRedoEq

/-- The history reducer.  The `splice(pos + 1, len - pos)` call removes every
element after index `pos`, i.e. keeps the prefix of length `pos + 1`; it only
runs when the cursor is not at the last index.  Out-of-range reads of
`newGridStateHistory[newCurrentHistoryPosition]` (unreachable from the initial
state) are defaulted. -/
def stateHistoryReducer {α : Type} [DecidableEq α] :
    StateHistoryReducerState α → StateHistoryAction α → StateHistoryReducerState α
  | state, StateHistoryAction.APPEND payload =>
    if shouldAppend state payload then
      let kept :=
        if state.currentHistoryPosition = (state.gridStateHistory.length : ℤ) - 1 then
          state.gridStateHistory
        else
          state.gridStateHistory.take (state.currentHistoryPosition + 1).toNat
      let newGridStateHistory := kept ++ [payload]
      let newCurrentHistoryPosition := state.currentHistoryPosition + 1
      { gridStateHistory := newGridStateHistory
        actionHistory := state.actionHistory ++ [StateHistoryCommand.APPEND]
        currentHistoryPosition := newCurrentHistoryPosition
        currentHead := (listGet? newGridStateHistory newCurrentHistoryPosition).getD payload }
    else state
  | state, StateHistoryAction.UNDO =>
    if 0 < state.currentHistoryPosition then
      { gridStateHistory := state.gridStateHistory
        actionHistory := state.actionHistory ++ [StateHistoryCommand.UNDO]
        currentHistoryPosition := state.currentHistoryPosition - 1
        currentHead :=
          (listGet? state.gridStateHistory (state.currentHistoryPosition - 1)).getD
            state.currentHead }
    else state
  | state, StateHistoryAction.REDO =>
    if state.currentHistoryPosition < (state.gridStateHistory.length : ℤ) - 1 then
      { gridStateHistory := state.gridStateHistory
        actionHistory := state.actionHistory ++ [StateHistoryCommand.REDO]
        currentHistoryPosition := state.currentHistoryPosition + 1
        currentHead :=
          (listGet? state.gridStateHistory (state.currentHistoryPosition + 1)).getD
            state.currentHead }
    else state

/-- The initial reducer state passed to `useReducer`
(`{gridStateHistory: [], actionHistory: [], currentHistoryPosition: -1,
currentHead: []}`), with the initial head as a parameter. -/
def initialHistoryState {α : Type} (head0 : α) : StateHistoryReducerState α :=
  { gridStateHistory := []
    actionHistory := []
    currentHistoryPosition := -1
    currentHead := head0 }

def appendAll {α : Type} [DecidableEq α] (s : StateHistoryReducerState α)
    (payloads : List α) : StateHistoryReducerState α :=
  payloads.foldl (fun s p => stateHistoryReducer s (StateHistoryAction.APPEND p)) s

def undoN {α : Type} [DecidableEq α] :
    ℕ → StateHistoryReducerState α → StateHistoryReducerState α
  | 0, s => s
  | n + 1, s => undoN n (stateHistoryReducer s StateHistoryAction.UNDO)

def redoN {α : Type} [DecidableEq α] :
    ℕ → StateHistoryReducerState α → StateHistoryReducerState α
  | 0, s => s
  | n + 1, s => redoN n (stateHistoryReducer s StateHistoryAction.REDO)

lemma listGet?_eq_some {α : Type} {l : List α} {i : ℤ} (h0 : 0 ≤ i)
    (h1 : i < (l.length : ℤ)) :
    ∃ x, listGet? l i = some x := by
  have hlt : i.toNat < l.length := by omega
  exact ⟨l.get ⟨i.toNat, hlt⟩, by simp [listGet?, h0, List.get?_eq_get hlt]⟩

lemma undo_eq_self {α : Type} [DecidableEq α] (s : StateHistoryReducerState α)
    (h : s.currentHistoryPosition ≤ 0) :
    stateHistoryReducer s StateHistoryAction.UNDO = s := by
  rw [stateHistoryReducer]
  rw [if_neg (by omega)]

lemma redo_eq_self {α : Type} [DecidableEq α] (s : StateHistoryReducerState α)
    (h : (s.gridStateHistory.length : ℤ) - 1 ≤ s.currentHistoryPosition) :
    stateHistoryReducer s StateHistoryAction.REDO = s := by
  rw [stateHistoryReducer]
  rw [if_neg (by omega)]

lemma undo_eq_of_pos {α : Type} [DecidableEq α] {s : StateHistoryReducerState α}
    (hp : 0 < s.currentHistoryPosition) {x : α}
    (hx : listGet? s.gridStateHistory (s.currentHistoryPosition - 1) = some x) :
    stateHistoryReducer s StateHistoryAction.UNDO =
      { gridStateHistory := s.gridStateHistory
        actionHistory := s.actionHistory ++ [StateHistoryCommand.UNDO]
        currentHistoryPosition := s.currentHistoryPosition - 1
        currentHead := x } := by
  rw [stateHistoryReducer]
  rw [if_pos hp, hx]
  rfl

lemma redo_eq_of_lt {α : Type} [DecidableEq α] {s : StateHistoryReducerState α}
    (hp : s.currentHistoryPosition < (s.gridStateHistory.length : ℤ) - 1) {x : α}
    (hx : listGet? s.gridStateHistory (s.currentHistoryPosition + 1) = some x) :
    stateHistoryReducer s StateHistoryAction.REDO =
      { gridStateHistory := s.gridStateHistory
        actionHistory := s.actionHistory ++ [StateHistoryCommand.REDO]
        currentHistoryPosition := s.currentHistoryPosition + 1
        currentHead := x } := by
  rw [stateHistoryReducer]
  rw [if_pos hp, hx]
  rfl

lemma undoN_succ {α : Type} [DecidableEq α] (n : ℕ) (s : StateHistoryReducerState α) :
    undoN (n + 1) s = undoN n (stateHistoryReducer s StateHistoryAction.UNDO) := rfl

lemma redoN_succ {α : Type} [DecidableEq α] (n : ℕ) (s : StateHistoryReducerState α) :
    redoN (n + 1) s = redoN n (stateHistoryReducer s StateHistoryAction.REDO) := rfl

lemma undoN_spec {α : Type} [DecidableEq α] (n : ℕ) :
    ∀ s : StateHistoryReducerState α,
      0 ≤ s.currentHistoryPosition →
      s.currentHistoryPosition < (s.gridStateHistory.length : ℤ) →
      listGet? s.gridStateHistory s.currentHistoryPosition = some s.currentHead →
      (undoN n s).gridStateHistory = s.gridStateHistory ∧
      (undoN n s).currentHistoryPosition = max (s.currentHistoryPosition - n) 0 ∧
      listGet? s.gridStateHistory (max (s.currentHistoryPosition - n) 0) =
        some (undoN n s).currentHead := by
  induction n with
  | zero =>
    intro s h0 h1 hh
    have hmax : max (s.currentHistoryPosition - ((0 : ℕ) : ℤ)) 0 =
        s.currentHistoryPosition := by omega
    exact ⟨rfl, by rw [hmax]; rfl, by rw [hmax]; exact hh⟩
  | succ n ih =>
    intro s h0 h1 hh
    rw [undoN_succ]
    by_cases hp : 0 < s.currentHistoryPosition
    · obtain ⟨x, hx⟩ := listGet?_eq_some (l := s.gridStateHistory)
        (i := s.currentHistoryPosition - 1) (by omega) (by omega)
      rw [undo_eq_of_pos hp hx]
      have hstep := ih
        { gridStateHistory := s.gridStateHistory
          actionHistory := s.actionHistory ++ [StateHistoryCommand.UNDO]
          currentHistoryPosition := s.currentHistoryPosition - 1
          currentHead := x }
        (by dsimp; omega) (by dsimp; omega) (by dsimp; exact hx)
      dsimp at hstep
      obtain ⟨hg, hpos, hhead⟩ := hstep
      refine ⟨hg, ?_, ?_⟩
      · rw [hpos]; push_cast; omega
      · rw [show max (s.currentHistoryPosition - ((n : ℕ) + 1 : ℕ) : ℤ) 0 =
            max (s.currentHistoryPosition - 1 - (n : ℤ)) 0 by push_cast; omega]
        exact hhead
    · rw [undo_eq_self s (by omega)]
      obtain ⟨hg, hpos, hhead⟩ := ih s h0 h1 hh
      refine ⟨hg, ?_, ?_⟩
      · rw [hpos]; push_cast; omega
      · rw [show max (s.currentHistoryPosition - ((n : ℕ) + 1 : ℕ) : ℤ) 0 =
            max (s.currentHistoryPosition - (n : ℤ)) 0 by push_cast; omega]
        exact hhead

lemma redoN_spec {α : Type} [DecidableEq α] (n : ℕ) :
    ∀ s : StateHistoryReducerState α,
      0 ≤ s.currentHistoryPosition →
      s.currentHistoryPosition < (s.gridStateHistory.length : ℤ) →
      listGet? s.gridStateHistory s.currentHistoryPosition = some s.currentHead →
      (redoN n s).gridStateHistory = s.gridStateHistory ∧
      (redoN n s).currentHistoryPosition =
        min (s.currentHistoryPosition + n) ((s.gridStateHistory.length : ℤ) - 1) ∧
      listGet? s.gridStateHistory
          (min (s.currentHistoryPosition + n) ((s.gridStateHistory.length : ℤ) - 1)) =
        some (redoN n s).currentHead := by
  induction n with
  | zero =>
    intro s h0 h1 hh
    have hmin : min (s.currentHistoryPosition + ((0 : ℕ) : ℤ))
        ((s.gridStateHistory.length : ℤ) - 1) = s.currentHistoryPosition := by omega
    exact ⟨rfl, by rw [hmin]; rfl, by rw [hmin]; exact hh⟩
  | succ n ih =>
    intro s h0 h1 hh
    rw [redoN_succ]
    by_cases hp : s.currentHistoryPosition < (s.gridStateHistory.length : ℤ) - 1
    · obtain ⟨x, hx⟩ := listGet?_eq_some (l := s.gridStateHistory)
        (i := s.currentHistoryPosition + 1) (by omega) (by omega)
      rw [redo_eq_of_lt hp hx]
      have hstep := ih
        { gridStateHistory := s.gridStateHistory
          actionHistory := s.actionHistory ++ [StateHistoryCommand.REDO]
          currentHistoryPosition := s.currentHistoryPosition + 1
          currentHead := x }
        (by dsimp; omega) (by dsimp; omega) (by dsimp; exact hx)
      dsimp at hstep
      obtain ⟨hg, hpos, hhead⟩ := hstep
      refine ⟨hg, ?_, ?_⟩
      · rw [hpos]; push_cast; omega
      · rw [show min (s.currentHistoryPosition + ((n : ℕ) + 1 : ℕ) : ℤ)
            ((s.gridStateHistory.length : ℤ) - 1) =
            min (s.currentHistoryPosition + 1 + (n : ℤ))
              ((s.gridStateHistory.length : ℤ) - 1) by push_cast; omega]
        exact hhead
    · rw [redo_eq_self s (by omega)]
      obtain ⟨hg, hpos, hhead⟩ := ih s h0 h1 hh
      refine ⟨hg, ?_, ?_⟩
      · rw [hpos]; push_cast; omega
      · rw [show min (s.currentHistoryPosition + ((n : ℕ) + 1 : ℕ) : ℤ)
            ((s.gridStateHistory.length : ℤ) - 1) =
            min (s.currentHistoryPosition + (n : ℤ))
              ((s.gridStateHistory.length : ℤ) - 1) by push_cast; omega]
        exact hhead

lemma undoN_eq_self {α : Type} [DecidableEq α] (n : ℕ) (s : StateHistoryReducerState α)
    (h : s.currentHistoryPosition ≤ 0) : undoN n s = s := by
  induction n with
  | zero => rfl
  | succ m ihm =>
    rw [undoN_succ, undo_eq_self s h]
    exact ihm

lemma redoN_eq_self {α : Type} [DecidableEq α] (n : ℕ) (s : StateHistoryReducerState α)
    (h : (s.gridStateHistory.length : ℤ) - 1 ≤ s.currentHistoryPosition) :
    redoN n s = s := by
  induction n with
  | zero => rfl
  | succ m ihm =>
    rw [redoN_succ, redo_eq_self s h]
    exact ihm

/-- Invariant along an APPEND-only run: the cursor sits at the last index
(`-1` for the empty history) and the head is the snapshot at the cursor. -/
def appendInv {α : Type} (s : StateHistoryReducerState α) : Prop :=
  s.currentHistoryPosition = (s.gridStateHistory.length : ℤ) - 1 ∧
  (0 < s.gridStateHistory.length →
    listGet? s.gridStateHistory s.currentHistoryPosition = some s.currentHead)

lemma appendInv_step {α : Type} [DecidableEq α] (s : StateHistoryReducerState α)
    (p : α) (h : appendInv s) :
    appendInv (stateHistoryReducer s (StateHistoryAction.APPEND p)) := by
  obtain ⟨hpos, hhead⟩ := h
  rw [stateHistoryReducer]
  by_cases hs : shouldAppend s p
  · rw [if_pos hs, if_pos hpos]
    constructor
    · dsimp
      simp only [List.length_append, List.length_singleton]
      push_cast
      omega
    · intro _
      dsimp
      have hget : listGet? (s.gridStateHistory ++ [p]) (s.currentHistoryPosition + 1) =
          some p := by
        unfold listGet?
        rw [if_pos (by omega)]
        rw [show (s.currentHistoryPosition + 1).toNat = s.gridStateHistory.length by omega]
        exact List.get?_concat_length s.gridStateHistory p
      rw [hget]
      rfl
  · rw [if_neg hs]
    exact ⟨hpos, hhead⟩

lemma appendInv_foldl {α : Type} [DecidableEq α] {s : StateHistoryReducerState α}
    (ps : List α) (h : appendInv s) :
    appendInv (appendAll s ps) := by
  unfold appendAll
  induction ps generalizing s with
  | nil => exact h
  | cons q qs ih2 =>
    rw [List.foldl_cons]
    exact ih2 (appendInv_step _ _ h)

lemma appendAll_inv {α : Type} [DecidableEq α] (head0 : α) (payloads : List α) :
    appendInv (appendAll (initialHistoryState head0) payloads) := by
  apply appendInv_foldl
  constructor
  · simp [initialHistoryState]
  · intro h
    simp [initialHistoryState] at h

/-- C2: For every history state reached by a sequence of APPEND operations
from the initial reducer state, and every N, applying N UNDO actions followed
by N REDO actions yields a state whose current head snapshot equals the head
snapshot before the UNDO/REDO sequence. -/
theorem history_undo_redo_round_trip {α : Type} [DecidableEq α] (head0 : α)
    (payloads : List α) (n : ℕ) :
    (redoN n (undoN n (appendAll (initialHistoryState head0) payloads))).currentHead =
      (appendAll (initialHistoryState head0) payloads).currentHead := by
  set s := appendAll (initialHistoryState head0) payloads with hs
  obtain ⟨hpos, hhead⟩ := appendAll_inv head0 payloads
  rw [← hs] at hpos hhead
  by_cases hlen : 0 < s.gridStateHistory.length
  · have hh := hhead hlen
    have h0 : 0 ≤ s.currentHistoryPosition := by omega
    have h1 : s.currentHistoryPosition < (s.gridStateHistory.length : ℤ) := by omega
    obtain ⟨hug, hupos, huhead⟩ := undoN_spec n s h0 h1 hh
    obtain ⟨hrg, hrpos, hrhead⟩ := redoN_spec n (undoN n s)
      (by rw [hupos]; omega)
      (by rw [hupos, hug]; omega)
      (by rw [hug, hupos]; exact huhead)
    rw [hug, hupos] at hrhead
    have hfin : min (max (s.currentHistoryPosition - (n : ℤ)) 0 + (n : ℤ))
        ((s.gridStateHistory.length : ℤ) - 1) = s.currentHistoryPosition := by omega
    rw [hfin, hh] at hrhead
    exact (Option.some_injective α hrhead).symm
  · have hun : undoN n s = s := undoN_eq_self n s (by omega)
    have hrn : redoN n s = s := redoN_eq_self n s (by omega)
    rw [hun, hrn]

/-- Witness for C2 at a concrete run: three appends, two undos, two redos. -/
theorem history_undo_redo_round_trip_witness :
    (redoN 2 (undoN 2 (appendAll (initialHistoryState (0 : ℕ)) [1, 2, 3]))).currentHead =
      (appendAll (initialHistoryState (0 : ℕ)) [1, 2, 3]).currentHead :=
  history_undo_redo_round_trip 0 [1, 2, 3] 2

/-- C3: from a state whose cursor has been moved below the last index by an
UNDO, an APPEND that is actually applied truncates every snapshot after the
new cursor (the history becomes the kept prefix plus the payload, with the
cursor at the last index), and an immediately following REDO is a no-op. -/
theorem append_after_undo_truncates {α : Type} [DecidableEq α]
    (s : StateHistoryReducerState α) (payload : α)
    (h0 : 0 ≤ s.currentHistoryPosition)
    (h1 : s.currentHistoryPosition < (s.gridStateHistory.length : ℤ) - 1)
    (happly : shouldAppend s payload = true) :
    (stateHistoryReducer s (StateHistoryAction.APPEND payload)).gridStateHistory =
      s.gridStateHistory.take (s.currentHistoryPosition + 1).toNat ++ [payload] ∧
    (stateHistoryReducer s (StateHistoryAction.APPEND payload)).currentHistoryPosition =
      ((stateHistoryReducer s (StateHistoryAction.APPEND payload)).gridStateHistory.length : ℤ)
        - 1 ∧
    stateHistoryReducer (stateHistoryReducer s (StateHistoryAction.APPEND payload))
        StateHistoryAction.REDO =
      stateHistoryReducer s (StateHistoryAction.APPEND payload) := by
  have hne : ¬ s.currentHistoryPosition = (s.gridStateHistory.length : ℤ) - 1 := by omega
  have hred : stateHistoryReducer s (StateHistoryAction.APPEND payload) =
      { gridStateHistory :=
          s.gridStateHistory.take (s.currentHistoryPosition + 1).toNat ++ [payload]
        actionHistory := s.actionHistory ++ [StateHistoryCommand.APPEND]
        currentHistoryPosition := s.currentHistoryPosition + 1
        currentHead :=
          (listGet? (s.gridStateHistory.take (s.currentHistoryPosition + 1).toNat ++ [payload])
            (s.currentHistoryPosition + 1)).getD payload } := by
    rw [stateHistoryReducer]
    rw [if_pos happly, if_neg hne]
  have hlen : ((s.gridStateHistory.take (s.currentHistoryPosition + 1).toNat ++
      [payload]).length : ℤ) = s.currentHistoryPosition + 2 := by
    simp only [List.length_append, List.length_take, List.length_singleton]
    push_cast
    omega
  refine ⟨by rw [hred], ?_, ?_⟩
  · rw [hred]
    dsimp
    rw [hlen]
    omega
  · apply redo_eq_self
    rw [hred]
    dsimp
    rw [hlen]
    omega

/-- Witness for C3: history `[10, 20]` with the cursor moved back to 0 by an
UNDO; appending `30` truncates the redo branch and a REDO then no-ops. -/
theorem append_after_undo_truncates_witness :
    (0 : ℤ) ≤ (⟨[10, 20], [StateHistoryCommand.APPEND, StateHistoryCommand.APPEND,
        StateHistoryCommand.UNDO], 0, 10⟩ :
        StateHistoryReducerState ℕ).currentHistoryPosition ∧
    (⟨[10, 20], [StateHistoryCommand.APPEND, StateHistoryCommand.APPEND,
        StateHistoryCommand.UNDO], 0, 10⟩ :
        StateHistoryReducerState ℕ).currentHistoryPosition <
      (((⟨[10, 20], [StateHistoryCommand.APPEND, StateHistoryCommand.APPEND,
        StateHistoryCommand.UNDO], 0, 10⟩ :
        StateHistoryReducerState ℕ).gridStateHistory.length : ℤ)) - 1 ∧
    ((stateHistoryReducer (⟨[10, 20], [StateHistoryCommand.APPEND, StateHistoryCommand.APPEND,
        StateHistoryCommand.UNDO], 0, 10⟩ : StateHistoryReducerState ℕ)
        (StateHistoryAction.APPEND 30)).gridStateHistory =
      [10, 30] ∧
    stateHistoryReducer (stateHistoryReducer (⟨[10, 20], [StateHistoryCommand.APPEND,
        StateHistoryCommand.APPEND, StateHistoryCommand.UNDO], 0, 10⟩ :
        StateHistoryReducerState ℕ) (StateHistoryAction.APPEND 30))
        StateHistoryAction.REDO =
      stateHistoryReducer (⟨[10, 20], [StateHistoryCommand.APPEND, StateHistoryCommand.APPEND,
        StateHistoryCommand.UNDO], 0, 10⟩ : StateHistoryReducerState ℕ)
        (StateHistoryAction.APPEND 30)) := by
  refine ⟨by decide, by decide, ?_, ?_⟩
  · have h := append_after_undo_truncates
      (⟨[10, 20], [StateHistoryCommand.APPEND, StateHistoryCommand.APPEND,
        StateHistoryCommand.UNDO], 0, 10⟩ : StateHistoryReducerState ℕ) 30
      (by decide) (by decide) (by decide)
    rw [h.1]
    decide
  · exact (append_after_undo_truncates
      (⟨[10, 20], [StateHistoryCommand.APPEND, StateHistoryCommand.APPEND,
        StateHistoryCommand.UNDO], 0, 10⟩ : StateHistoryReducerState ℕ) 30
      (by decide) (by decide) (by decide)).2.2

/-! ### Panel placement (`addItem` of both component revisions) -/

structure GridItemLayout where
  x : ℤ
  y : ℤ
  w : ℤ
  h : ℤ
  isDraggable : Bool
  isResizable : Bool
deriving DecidableEq, Repr

/-- `maxArray` on the two-element arrays `[y + h, x + w]` used at its only
call site: the loop returns whichever pair is larger at the first index where
they differ, preferring the first argument on a tie. -/
def maxArray (a b : ℤ × ℤ) : ℤ × ℤ :=
  if a.1 > b.1 then a
  else if b.1 > a.1 then b
  else if a.2 > b.2 then a
  else if b.2 > a.2 then b
  else a

/-- `intervalsIntersect([a, b], [c, d]) = Math.max(a, c) < Math.min(b, d)`. -/
def intervalsIntersect (a b c d : ℤ) : Bool :=
  decide (max a c < min b d)

/-- The minimum top for the new item: the maximum bottom edge over existing
items whose horizontal span intersects `[left, left + 2)`, defaulting to 0. -/
def newItemTopMinOf (gridItems : List GridItemLayout) (left : ℤ) : ℤ :=
  ((gridItems.filter fun e =>
      intervalsIntersect left (left + 2) e.x (e.x + e.w)).map fun e =>
    e.y + e.h).foldl max 0

/-- The layout computed by `addItem` of the revision with collision
refinement (`ITEM_WIDTH = 2`, `ITEM_HEIGHT = 4`, `GRID_COL = 6`): the lexicographic
maximum of `(y + h, x + w)` pairs gives the tentative bottom and left edge,
wrapping to column 0 one row below when the item would go off screen, then the
top is pushed below every horizontally-intersecting item. -/
def addItem (gridItems : List GridItemLayout) (isLayoutLocked : Bool) :
    GridItemLayout :=
  let p := (gridItems.map fun e => (e.y + e.h, e.x + e.w)).foldl maxArray (0, 0)
  let wrapped := decide (p.2 + 2 > 6)
  let newItemLeft : ℤ := if wrapped then 0 else p.2
  let newItemBotMin : ℤ := if wrapped then p.1 + 4 else p.1
  let newItemTopMin := newItemTopMinOf gridItems newItemLeft
  let newItemTop := max (newItemBotMin - 4) newItemTopMin
  { x := newItemLeft
    y := newItemTop
    w := 2
    h := 4
    isDraggable := !isLayoutLocked
    isResizable := !isLayoutLocked }

/-- `Math.max(...)` over a list, `-Infinity`-free: the only uses below are
guarded so that the empty case (JS `-Infinity`) is never reached; it is
defaulted to 0, matching the `isFinite` guard at the first call site. -/
def listMaxZ : List ℤ → ℤ
  | [] => 0
  | a :: rest => rest.foldl max a

/-- The layout computed by `addItem` of `ConfigurableLayout.tsx` (`COLS = 6`,
`ITEM_WIDTH = 2`, `ITEM_HEIGHT = 4`): no collision-refinement step; when the
rightmost bottom item leaves room, the new item is placed beside it one item
height above the grid bottom. -/
def addItemCL (currentHead : List GridItemLayout) (isLayoutLocked : Bool) :
    GridItemLayout :=
  let gridMaxY := listMaxZ (currentHead.map fun e => e.y + e.h)
  let maxX := listMaxZ
    ((currentHead.filter fun e => e.y + e.h = gridMaxY).map fun e => e.x + e.w)
  let place : ℤ × ℤ :=
    if currentHead.length ≠ 0 ∧ maxX ≤ 6 - 2 then (maxX, gridMaxY - 4)
    else (0, gridMaxY)
  { x := place.1
    y := place.2
    w := 2
    h := 4
    isDraggable := !isLayoutLocked
    isResizable := !isLayoutLocked }

/-- Two rectangles overlap when both their horizontal and vertical spans
intersect. -/
def overlapsBoth (a b : GridItemLayout) : Bool :=
  intervalsIntersect a.x (a.x + a.w) b.x (b.x + b.w) &&
  intervalsIntersect a.y (a.y + a.h) b.y (b.y + b.h)

lemma foldl_max_init_le (l : List ℤ) (b : ℤ) : b ≤ l.foldl max b := by
  induction l generalizing b with
  | nil => exact le_refl b
  | cons a t ih =>
    rw [List.foldl_cons]
    exact le_trans (le_max_left b a) (ih (max b a))

lemma foldl_max_mem_le (l : List ℤ) (b a : ℤ) (h : a ∈ l) : a ≤ l.foldl max b := by
  induction l generalizing b with
  | nil => cases h
  | cons c t ih =>
    rw [List.foldl_cons]
    rcases List.mem_cons.mp h with rfl | hmem
    · exact le_trans (le_max_right b a) (foldl_max_init_le t (max b a))
    · exact ih (max b c) hmem

lemma foldl_max_le_of (l : List ℤ) (b c : ℤ) (hb : b ≤ c) (h : ∀ a ∈ l, a ≤ c) :
    l.foldl max b ≤ c := by
  induction l generalizing b with
  | nil => exact hb
  | cons a t ih =>
    rw [List.foldl_cons]
    exact ih (max b a) (max_le hb (h a (List.mem_cons_self a t)))
      (fun x hx => h x (List.mem_cons_of_mem a hx))

/-- C1 (amended): the `addItem` of the collision-refinement revision never
produces a rectangle overlapping an existing panel in both axes
simultaneously: any horizontally-intersecting panel forces the new top below
its bottom edge. -/
theorem addItem_no_overlap (gridItems : List GridItemLayout) (isLayoutLocked : Bool)
    (e : GridItemLayout) (he : e ∈ gridItems) :
    overlapsBoth (addItem gridItems isLayoutLocked) e = false := by
  unfold overlapsBoth addItem
  dsimp only
  set p := (gridItems.map fun e => (e.y + e.h, e.x + e.w)).foldl maxArray (0, 0) with hp
  set left : ℤ := if decide (p.2 + 2 > 6) then 0 else p.2 with hleft
  set botMin : ℤ := if decide (p.2 + 2 > 6) then p.1 + 4 else p.1 with hbot
  by_cases hint : intervalsIntersect left (left + 2) e.x (e.x + e.w)
  · -- the new top is at least the bottom edge of `e`, so the vertical spans miss
    have hmem : e.y + e.h ∈ (gridItems.filter fun i =>
        intervalsIntersect left (left + 2) i.x (i.x + i.w)).map fun i => i.y + i.h :=
      List.mem_map.mpr ⟨e, List.mem_filter.mpr ⟨he, hint⟩, rfl⟩
    have htop : e.y + e.h ≤ max (botMin - 4) (newItemTopMinOf gridItems left) :=
      le_trans (foldl_max_mem_le _ 0 _ hmem) (le_max_right _ _)
    have hvert : intervalsIntersect (max (botMin - 4) (newItemTopMinOf gridItems left))
        (max (botMin - 4) (newItemTopMinOf gridItems left) + 4) e.y (e.y + e.h) = false := by
      unfold intervalsIntersect
      simp only [decide_eq_false_iff_not, not_lt]
      omega
    rw [hvert]
    simp
  · have hint2 : intervalsIntersect left (left + 2) e.x (e.x + e.w) = false :=
      Bool.eq_false_iff.mpr hint
    rw [hint2]
    simp

/-- Witness for C1 (amended) at a concrete panel set. -/
theorem addItem_no_overlap_witness :
    (⟨0, 0, 2, 8, true, true⟩ : GridItemLayout) ∈
      [(⟨0, 0, 2, 8, true, true⟩ : GridItemLayout), ⟨2, 0, 2, 5, true, true⟩] ∧
    overlapsBoth (addItem [(⟨0, 0, 2, 8, true, true⟩ : GridItemLayout),
        ⟨2, 0, 2, 5, true, true⟩] false) ⟨0, 0, 2, 8, true, true⟩ = false :=
  ⟨by decide, addItem_no_overlap _ false _ (by decide)⟩

/-- C1 counterexample: the `addItem` of `ConfigurableLayout.tsx` (which has no
collision-refinement step) places a new panel overlapping an existing one in
both axes: with panels `(x 0, y 0, w 2, h 8)` and `(x 2, y 0, w 2, h 5)` the
new 2×4 panel lands at `(2, 4)`, overlapping the second panel. -/
theorem addItemCL_overlap_cex :
    (⟨2, 0, 2, 5, true, true⟩ : GridItemLayout) ∈
      [(⟨0, 0, 2, 8, true, true⟩ : GridItemLayout), ⟨2, 0, 2, 5, true, true⟩] ∧
    addItemCL [(⟨0, 0, 2, 8, true, true⟩ : GridItemLayout),
        ⟨2, 0, 2, 5, true, true⟩] false =
      ⟨2, 4, 2, 4, true, true⟩ ∧
    overlapsBoth (addItemCL [(⟨0, 0, 2, 8, true, true⟩ : GridItemLayout),
        ⟨2, 0, 2, 5, true, true⟩] false) ⟨2, 0, 2, 5, true, true⟩ = true := by
  refine ⟨by decide, by decide, by decide⟩


/-- Modelled from the spec wording of the placement step: `bottomMost` is the
maximum of `y + h` over existing panels, defaulting to 0. -/
def bottomMost (gridItems : List GridItemLayout) : ℤ :=
  (gridItems.map fun e => e.y + e.h).foldl max 0

/-- Modelled from the spec wording of the placement step: `rightEdgeAtBottom`
is the maximum of `x + w` among panels achieving `bottomMost`, defaulting
to 0. -/
def rightEdgeAtBottom (gridItems : List GridItemLayout) : ℤ :=
  ((gridItems.filter fun e => e.y + e.h = bottomMost gridItems).map fun e =>
    e.x + e.w).foldl max 0

/-- The linear order on pairs realized by `maxArray`: first components
compared first, ties broken by the second. -/
def lexLe (a b : ℤ × ℤ) : Prop :=
  a.1 < b.1 ∨ (a.1 = b.1 ∧ a.2 ≤ b.2)

lemma maxArray_cases (a b : ℤ × ℤ) : maxArray a b = a ∨ maxArray a b = b := by
  unfold maxArray
  split_ifs <;> simp

lemma lexLe_maxArray_left (a b : ℤ × ℤ) : lexLe a (maxArray a b) := by
  unfold maxArray lexLe
  split_ifs <;> omega

lemma lexLe_maxArray_right (a b : ℤ × ℤ) : lexLe b (maxArray a b) := by
  unfold maxArray lexLe
  split_ifs <;> omega

lemma lexLe_trans {a b c : ℤ × ℤ} (h1 : lexLe a b) (h2 : lexLe b c) : lexLe a c := by
  unfold lexLe at h1 h2 ⊢
  omega

lemma lexLe_fst {a b : ℤ × ℤ} (h : lexLe a b) : a.1 ≤ b.1 := by
  unfold lexLe at h
  omega

lemma lexLe_snd {a b : ℤ × ℤ} (h : lexLe a b) (heq : a.1 = b.1) : a.2 ≤ b.2 := by
  unfold lexLe at h
  omega

lemma foldl_maxArray_init_le (l : List (ℤ × ℤ)) (b : ℤ × ℤ) :
    lexLe b (l.foldl maxArray b) := by
  induction l generalizing b with
  | nil => exact Or.inr ⟨rfl, le_refl _⟩
  | cons a t ih =>
    rw [List.foldl_cons]
    exact lexLe_trans (lexLe_maxArray_left b a) (ih (maxArray b a))

lemma foldl_maxArray_mem_le (l : List (ℤ × ℤ)) (b x : ℤ × ℤ) (h : x ∈ l) :
    lexLe x (l.foldl maxArray b) := by
  induction l generalizing b with
  | nil => cases h
  | cons c t ih =>
    rw [List.foldl_cons]
    rcases List.mem_cons.mp h with rfl | hmem
    · exact lexLe_trans (lexLe_maxArray_right b x) (foldl_maxArray_init_le t (maxArray b x))
    · exact ih (maxArray b c) hmem

lemma foldl_maxArray_mem_or (l : List (ℤ × ℤ)) (b : ℤ × ℤ) :
    l.foldl maxArray b = b ∨ l.foldl maxArray b ∈ l := by
  induction l generalizing b with
  | nil => exact Or.inl rfl
  | cons c t ih =>
    rw [List.foldl_cons]
    rcases ih (maxArray b c) with h | h
    · rcases maxArray_cases b c with hm | hm
      · exact Or.inl (h.trans hm)
      · exact Or.inr (by rw [h, hm]; exact List.mem_cons_self c t)
    · exact Or.inr (List.mem_cons_of_mem c h)

/-- The `reduce(maxArray, [0, 0])` pass computes exactly the pair
`(bottomMost, rightEdgeAtBottom)` of the spec, provided every panel's right
edge is non-negative. -/
lemma foldl_maxArray_eq (gridItems : List GridItemLayout)
    (hw : ∀ e ∈ gridItems, 0 ≤ e.x + e.w) :
    (gridItems.map fun e => (e.y + e.h, e.x + e.w)).foldl maxArray (0, 0) =
      (bottomMost gridItems, rightEdgeAtBottom gridItems) := by
  have hz1 : ((gridItems.map fun e => (e.y + e.h, e.x + e.w)).foldl maxArray (0, 0)).1 =
      bottomMost gridItems := by
    unfold bottomMost
    apply le_antisymm
    · rcases foldl_maxArray_mem_or (gridItems.map fun e => (e.y + e.h, e.x + e.w))
        (0, 0) with h | h
      · rw [h]
        exact foldl_max_init_le _ 0
      · obtain ⟨e, he, hpe⟩ := List.mem_map.mp h
        rw [← hpe]
        exact foldl_max_mem_le _ 0 _ (List.mem_map.mpr ⟨e, he, rfl⟩)
    · apply foldl_max_le_of
      · exact lexLe_fst (foldl_maxArray_init_le _ (0, 0))
      · intro a ha
        obtain ⟨e, he, hpe⟩ := List.mem_map.mp ha
        rw [← hpe]
        exact lexLe_fst (foldl_maxArray_mem_le _ (0, 0) _ (List.mem_map.mpr ⟨e, he, rfl⟩))
  have hz2 : ((gridItems.map fun e => (e.y + e.h, e.x + e.w)).foldl maxArray (0, 0)).2 =
      rightEdgeAtBottom gridItems := by
    unfold rightEdgeAtBottom
    apply le_antisymm
    · rcases foldl_maxArray_mem_or (gridItems.map fun e => (e.y + e.h, e.x + e.w))
        (0, 0) with h | h
      · rw [h]
        exact foldl_max_init_le _ 0
      · obtain ⟨e, he, hpe⟩ := List.mem_map.mp h
        have hbm : e.y + e.h = bottomMost gridItems := by
          rw [← hz1, ← hpe]
        rw [← hpe]
        exact foldl_max_mem_le _ 0 _
          (List.mem_map.mpr ⟨e, List.mem_filter.mpr ⟨he, by simpa using hbm⟩, rfl⟩)
    · apply foldl_max_le_of
      · rcases foldl_maxArray_mem_or (gridItems.map fun e => (e.y + e.h, e.x + e.w))
          (0, 0) with h | h
        · rw [h]
        · obtain ⟨e, he, hpe⟩ := List.mem_map.mp h
          rw [← hpe]
          exact hw e he
      · intro a ha
        obtain ⟨e, hef, hpe⟩ := List.mem_map.mp ha
        obtain ⟨he, hbm⟩ := List.mem_filter.mp hef
        have hbm2 : e.y + e.h = bottomMost gridItems := by simpa using hbm
        have hlex := foldl_maxArray_mem_le
          (gridItems.map fun i => (i.y + i.h, i.x + i.w)) (0, 0)
          (e.y + e.h, e.x + e.w) (List.mem_map.mpr ⟨e, he, rfl⟩)
        rw [← hpe]
        exact lexLe_snd hlex (hbm2.trans hz1.symm)
  calc (gridItems.map fun e => (e.y + e.h, e.x + e.w)).foldl maxArray (0, 0)
      = (((gridItems.map fun e => (e.y + e.h, e.x + e.w)).foldl maxArray (0, 0)).1,
        ((gridItems.map fun e => (e.y + e.h, e.x + e.w)).foldl maxArray (0, 0)).2) := rfl
  _ = (bottomMost gridItems, rightEdgeAtBottom gridItems) := by rw [hz1, hz2]

/-- C6 (amended): when `rightEdgeAtBottom + w > C` the new panel wraps to
column 0 with its tentative bottom one row-height below the previous bottom,
so its final top is `max bottomMost topMin` (not `bottomMost + h`); otherwise
it is placed at `x = rightEdgeAtBottom` with bottoms aligned, so its final top
is `max (bottomMost - h) topMin`, where `topMin` is the collision-refinement
minimum top. -/
theorem addItem_coordinates (gridItems : List GridItemLayout) (isLayoutLocked : Bool)
    (hw : ∀ e ∈ gridItems, 0 ≤ e.x + e.w) :
    (rightEdgeAtBottom gridItems + 2 > 6 →
      (addItem gridItems isLayoutLocked).x = 0 ∧
      (addItem gridItems isLayoutLocked).y =
        max (bottomMost gridItems) (newItemTopMinOf gridItems 0)) ∧
    (rightEdgeAtBottom gridItems + 2 ≤ 6 →
      (addItem gridItems isLayoutLocked).x = rightEdgeAtBottom gridItems ∧
      (addItem gridItems isLayoutLocked).y =
        max (bottomMost gridItems - 4)
          (newItemTopMinOf gridItems (rightEdgeAtBottom gridItems))) := by
  unfold addItem
  rw [foldl_maxArray_eq gridItems hw]
  dsimp only
  constructor
  · intro hgt
    have hc : decide (rightEdgeAtBottom gridItems + 2 > 6) = true := by
      simpa using hgt
    rw [hc]
    refine ⟨by simp, ?_⟩
    simp only [if_true]
    omega
  · intro hle
    have hc : decide (rightEdgeAtBottom gridItems + 2 > 6) = false := by
      simpa using hle
    rw [hc]
    exact ⟨by simp, by simp⟩

/-- Witness for C6 (amended): a single full-width panel triggers the wrap
branch; the new panel lands at column 0 with its top at the previous bottom. -/
theorem addItem_coordinates_witness :
    rightEdgeAtBottom [(⟨0, 0, 6, 4, true, true⟩ : GridItemLayout)] + 2 > 6 ∧
    (addItem [(⟨0, 0, 6, 4, true, true⟩ : GridItemLayout)] true).x = 0 ∧
    (addItem [(⟨0, 0, 6, 4, true, true⟩ : GridItemLayout)] true).y =
      max (bottomMost [(⟨0, 0, 6, 4, true, true⟩ : GridItemLayout)])
        (newItemTopMinOf [(⟨0, 0, 6, 4, true, true⟩ : GridItemLayout)] 0) :=
  ⟨by decide,
    (addItem_coordinates [(⟨0, 0, 6, 4, true, true⟩ : GridItemLayout)] true
      (by decide)).1 (by decide)⟩

/-- C6 counterexample: with the single panel `(x 0, y 0, w 6, h 4)` the wrap
branch fires (`rightEdgeAtBottom + w = 8 > 6`) yet the new panel's `y` is `4 =
bottomMost`, not `bottomMost + h = 8`; and with the single panel
`(x 0, y 0, w 2, h 4)` the non-wrap branch places at `y = 0`, not
`y = bottomMost = 4`. -/
theorem addItem_coordinates_cex :
    rightEdgeAtBottom [(⟨0, 0, 6, 4, true, true⟩ : GridItemLayout)] + 2 > 6 ∧
    (addItem [(⟨0, 0, 6, 4, true, true⟩ : GridItemLayout)] true).y = 4 ∧
    bottomMost [(⟨0, 0, 6, 4, true, true⟩ : GridItemLayout)] + 4 = 8 ∧
    ((4 : ℤ) ≠ 8) ∧
    ¬ (rightEdgeAtBottom [(⟨0, 0, 2, 4, true, true⟩ : GridItemLayout)] + 2 > 6) ∧
    (addItem [(⟨0, 0, 2, 4, true, true⟩ : GridItemLayout)] true).y = 0 ∧
    bottomMost [(⟨0, 0, 2, 4, true, true⟩ : GridItemLayout)] = 4 ∧
    ((0 : ℤ) ≠ 4) := by
  decide

/-! ### Time-series graph engine (`GraphView/Graph.js`) -/

/-- A JavaScript number that is either NaN or an (exact) numeric value.
Arithmetic absorbs NaN and every comparison involving NaN is false, matching
JS semantics for the places where the source lets NaN flow (timestamps and
the clock anchor). -/
inductive JVal where
  | nan : JVal
  | num : ℚ → JVal
deriving DecidableEq, Repr

def JVal.isNaN : JVal → Bool
  | JVal.nan => true
  | JVal.num _ => false

def JVal.add : JVal → JVal → JVal
  | JVal.num a, JVal.num b => JVal.num (a + b)
  | _, _ => JVal.nan

def JVal.sub : JVal → JVal → JVal
  | JVal.num a, JVal.num b => JVal.num (a - b)
  | _, _ => JVal.nan

/-- JS `<`: false whenever either side is NaN. -/
def JVal.ltB : JVal → JVal → Bool
  | JVal.num a, JVal.num b => decide (a < b)
  | _, _ => false

/-- JS `<=` on numbers, false whenever either side is NaN (used only to state
monotonicity hypotheses about buffered timestamps). -/
def JVal.leB : JVal → JVal → Bool
  | JVal.num a, JVal.num b => decide (a ≤ b)
  | _, _ => false

/-- One per-name series buffer: parallel `ts`/`vs` arrays plus the assigned
color.  Values are numeric (never NaN: `add` drops NaN values), while
timestamps may be NaN (a sample without a `"time"` entry). -/
structure Series where
  ts : List JVal
  vs : List ℚ
  color : String
deriving DecidableEq, Repr

/-- The graph options used by the embedded operations (`DEFAULT_OPTIONS`
also carries rendering-only styling constants that no claim mentions). -/
structure GraphOptions where
  windowMs : ℚ
  colors : List String
  maxTicks : ℕ
deriving DecidableEq, Repr

def DEFAULT_OPTIONS : GraphOptions :=
  { windowMs := 5000
    colors := ["#2979ff", "#dd2c00", "#4caf50", "#7c4dff", "#ffa000"]
    maxTicks := 7 }

/-- The graph state: insertion-ordered series map plus the clock anchor
(`beginGraphNowMs` in telemetry time, `beginRenderTimeMs` in browser time),
both initialized to NaN by `reset`. -/
structure Graph where
  data : List (String × Series)
  beginGraphNowMs : JVal
  beginRenderTimeMs : JVal
  options : GraphOptions
deriving DecidableEq, Repr

/-- `niceNum(range, round)`: `Math.floor(Math.log10 range)` is `Int.log 10`
on positive rationals (the only inputs reached by the claims; JS would give
NaN on a non-positive range). -/
def niceNum (range : ℚ) (round : Bool) : ℚ :=
  let exponent : ℤ := Int.log 10 range
  let fraction := range / (10 : ℚ) ^ exponent
  let niceFraction : ℚ :=
    if round then
      if fraction < 3 / 2 then 1
      else if fraction < 3 then 2
      else if fraction < 7 then 5
      else 10
    else
      if fraction ≤ 1 then 1
      else if fraction ≤ 2 then 2
      else if fraction ≤ 5 then 5
      else 10
  niceFraction * (10 : ℚ) ^ exponent

structure AxisScaling where
  min : ℚ
  max : ℚ
  spacing : ℚ
deriving DecidableEq, Repr

def getAxisScaling (min max : ℚ) (maxTicks : ℕ) : AxisScaling :=
  let range := niceNum (max - min) false
  let tickSpacing := niceNum (range / ((maxTicks : ℚ) - 1)) true
  let niceMin := (⌊min / tickSpacing⌋ : ℚ) * tickSpacing
  let niceMax := ((⌊max / tickSpacing⌋ : ℤ) + 1 : ℚ) * tickSpacing
  { min := niceMin
    max := niceMax
    spacing := tickSpacing }

/-- The timestamp extracted from one sample:
`sample.reduce((acc, {name, value}) => name === 'time' ? value : acc, NaN)`. -/
def sampleTime (sample : List (String × JVal)) : JVal :=
  sample.foldl (fun acc p => if p.1 = "time" then p.2 else acc) JVal.nan

/-- Appending one non-time numeric pair: lazily create the series (color
assigned from the palette by current series count) and push `(t, value)`. -/
def addValue (colors : List String) (t : JVal) (data : List (String × Series))
    (name : String) (value : ℚ) : List (String × Series) :=
  if (data.lookup name).isSome then
    data.map fun kv =>
      if kv.1 = name then
        (kv.1, { kv.2 with ts := kv.2.ts ++ [t], vs := kv.2.vs ++ [value] })
      else kv
  else
    data ++
      [(name,
        { ts := [t]
          vs := [value]
          color := (colors.get? (data.length % colors.length)).getD "" })]

/-- Processing one sample of `Graph.add`: extract the shared timestamp, then
append every non-`"time"`, non-NaN pair. -/
def addSample (colors : List String) (data : List (String × Series))
    (sample : List (String × JVal)) : List (String × Series) :=
  let t := sampleTime sample
  sample.foldl (fun d p =>
    if p.1 = "time" then d
    else
      match p.2 with
      | JVal.nan => d
      | JVal.num v => addValue colors t d p.1 v) data

/-- `Graph.add(samples)`: buffer every sample, and if `beginGraphNowMs` is
still NaN and the batch is non-empty, set the anchor from the last sample's
time minus the 250 ms transmission-lag compensation paired with the current
wall-clock time. -/
def Graph.add (g : Graph) (samples : List (List (String × JVal)))
    (nowWallMs : ℚ) : Graph :=
  let data := samples.foldl (addSample g.options.colors) g.data
  if g.beginGraphNowMs.isNaN && !samples.isEmpty then
    { g with
      data := data
      beginGraphNowMs := (sampleTime (samples.getLast?.getD [])).sub (JVal.num 250)
      beginRenderTimeMs := JVal.num nowWallMs }
  else
    { g with data := data }

/-- `Number.MAX_VALUE` as an exact rational. -/
def MAX_VALUE : ℚ := (2 ^ 53 - 1) * 2 ^ 971

/-- `Number.MIN_VALUE` (the smallest positive double) as an exact rational. -/
def MIN_VALUE : ℚ := 1 / 2 ^ 1074

/-- The nested reduction of `getYAxisScaling` computing the raw value range,
seeded with `[Number.MAX_VALUE, Number.MIN_VALUE]`. -/
def minMaxFold (data : List (String × Series)) : ℚ × ℚ :=
  data.foldl
    (fun acc kv => kv.2.vs.foldl (fun mm v => (min v mm.1, max v mm.2)) acc)
    (MAX_VALUE, MIN_VALUE)

def Graph.getYAxisScaling (g : Graph) : AxisScaling :=
  let mm := minMaxFold g.data
  if |mm.1 - mm.2| < 1 / 1000000 then
    getAxisScaling (mm.1 - 1) (mm.2 + 1) g.options.maxTicks
  else
    getAxisScaling mm.1 mm.2 g.options.maxTicks

/-- The prune condition of the render loop:
`ts[0] + o.windowMs + 250 < graphNowMs`. -/
def oldSample (windowMs : ℚ) (graphNowMs : JVal) (t : JVal) : Bool :=
  JVal.ltB ((t.add (JVal.num windowMs)).add (JVal.num 250)) graphNowMs

/-- The prune loop shifts `ts` and `vs` in lockstep while the head is old,
i.e. both arrays drop the maximal old prefix of `ts`. -/
def pruneSeries (windowMs : ℚ) (graphNowMs : JVal) (s : Series) : Series :=
  let k := (s.ts.takeWhile (oldSample windowMs graphNowMs)).length
  { ts := s.ts.drop k
    vs := s.vs.drop k
    color := s.color }

/-- `graphNowMs = beginGraphNowMs + (Date.now() - beginRenderTimeMs)`. -/
def graphNow (g : Graph) (wallNowMs : ℚ) : JVal :=
  g.beginGraphNowMs.add ((JVal.num wallNowMs).sub g.beginRenderTimeMs)

/-- `Graph.render`: abort (false) when no anchor is established; otherwise
prune every series and return whether any series is non-empty (the remaining
drawing steps do not change the buffer state). -/
def Graph.render (g : Graph) (wallNowMs : ℚ) : Graph × Bool :=
  if g.beginGraphNowMs.isNaN then (g, false)
  else
    let data := g.data.map fun kv =>
      (kv.1, pruneSeries g.options.windowMs (graphNow g wallNowMs) kv.2)
    let allEmpty := data.all fun kv => kv.2.ts.isEmpty
    ({ g with data := data }, !allEmpty)

lemma niceNum_37 : niceNum (37 : ℚ) false = 50 := by
  have hlog : Int.log 10 (37 : ℚ) = 1 := by
    rw [show (37 : ℚ) = ((37 : ℕ) : ℚ) by norm_num, Int.log_natCast]
    have : Nat.log 10 37 = 1 := Nat.log_eq_of_pow_le_of_lt_pow (by norm_num) (by norm_num)
    exact_mod_cast this
  unfold niceNum
  rw [hlog]
  norm_num

lemma niceNum_25_3 : niceNum ((25 : ℚ) / 3) true = 10 := by
  have hlog : Int.log 10 ((25 : ℚ) / 3) = 0 := by
    rw [Int.log_of_one_le_right _ (by norm_num : (1 : ℚ) ≤ 25 / 3)]
    have hfl : ⌊(25 : ℚ) / 3⌋₊ = 8 := by norm_num [Nat.floor_eq_iff]
    rw [hfl]
    have : Nat.log 10 8 = 0 := by simp [Nat.log_eq_zero_iff]
    exact_mod_cast this
  unfold niceNum
  rw [hlog]
  norm_num

lemma getAxisScaling_10_47 :
    getAxisScaling 10 47 7 = { min := 10, max := 50, spacing := 10 } := by
  unfold getAxisScaling
  dsimp only
  rw [show (47 : ℚ) - 10 = 37 by norm_num, niceNum_37]
  rw [show (50 : ℚ) / (((7 : ℕ) : ℚ) - 1) = 25 / 3 by norm_num, niceNum_25_3]
  rw [show ⌊(10 : ℚ) / 10⌋ = 1 by norm_num]
  rw [show ⌊(47 : ℚ) / 10⌋ = 4 by norm_num]
  norm_num

/-- C8: for min 10, max 47 (the extremes of `[10, 12, 47]`) and maxTicks 7,
`getAxisScaling` returns a min at most 10, a max at least 47, and a tick
spacing of the form `f * 10 ^ k` with `f` in `{1, 2, 5, 10}`. -/
theorem getAxisScaling_values :
    (getAxisScaling 10 47 7).min ≤ 10 ∧
    (47 : ℚ) ≤ (getAxisScaling 10 47 7).max ∧
    ∃ (f : ℚ) (k : ℤ), (f = 1 ∨ f = 2 ∨ f = 5 ∨ f = 10) ∧
      (getAxisScaling 10 47 7).spacing = f * 10 ^ k := by
  rw [getAxisScaling_10_47]
  refine ⟨by norm_num, by norm_num, 10, 0, by norm_num, by norm_num⟩

lemma MIN_VALUE_pos : (0 : ℚ) < MIN_VALUE := by
  unfold MIN_VALUE
  positivity

lemma niceNum_pos (range : ℚ) (_hr : 0 < range) (round : Bool) :
    0 < niceNum range round := by
  unfold niceNum
  have hz : (0 : ℚ) < (10 : ℚ) ^ Int.log 10 range := zpow_pos (by norm_num) _
  dsimp only
  split_ifs <;> exact mul_pos (by norm_num) hz

lemma getAxisScaling_max_pos (min max : ℚ) (maxTicks : ℕ) (hr : 0 < max - min)
    (hm : 0 < max) (hT : 2 ≤ maxTicks) :
    0 < (getAxisScaling min max maxTicks).max := by
  unfold getAxisScaling
  dsimp only
  have hrange : 0 < niceNum (max - min) false := niceNum_pos _ hr false
  have hden : (0 : ℚ) < (maxTicks : ℚ) - 1 := by
    have h2 : (2 : ℚ) ≤ (maxTicks : ℚ) := by exact_mod_cast hT
    linarith
  have hspace : 0 < niceNum (niceNum (max - min) false / ((maxTicks : ℚ) - 1)) true :=
    niceNum_pos _ (div_pos hrange hden) true
  have hfloor : (0 : ℤ) ≤
      ⌊max / niceNum (niceNum (max - min) false / ((maxTicks : ℚ) - 1)) true⌋ :=
    Int.floor_nonneg.mpr (le_of_lt (div_pos hm hspace))
  have hcast : (0 : ℚ) <
      ((⌊max / niceNum (niceNum (max - min) false / ((maxTicks : ℚ) - 1)) true⌋ : ℤ) + 1 : ℚ) := by
    have : (0 : ℤ) <
        ⌊max / niceNum (niceNum (max - min) false / ((maxTicks : ℚ) - 1)) true⌋ + 1 := by
      omega
    exact_mod_cast this
  calc (0 : ℚ) = 0 * niceNum (niceNum (max - min) false / ((maxTicks : ℚ) - 1)) true := by
        rw [zero_mul]
  _ < _ := by
        apply mul_lt_mul_of_pos_right _ hspace
        linarith

lemma innerFold_snd_mono (vs : List ℚ) (mm : ℚ × ℚ) :
    mm.2 ≤ (vs.foldl (fun mm v => (min v mm.1, max v mm.2)) mm).2 := by
  induction vs generalizing mm with
  | nil => exact le_refl _
  | cons v t ih =>
    rw [List.foldl_cons]
    exact le_trans (le_max_right v mm.2) (ih (min v mm.1, max v mm.2))

lemma outerFold_snd_mono (data : List (String × Series)) (acc : ℚ × ℚ) :
    acc.2 ≤ (data.foldl
      (fun acc kv => kv.2.vs.foldl (fun mm v => (min v mm.1, max v mm.2)) acc) acc).2 := by
  induction data generalizing acc with
  | nil => exact le_refl _
  | cons kv t ih =>
    rw [List.foldl_cons]
    exact le_trans (innerFold_snd_mono kv.2.vs acc) (ih _)

lemma minMaxFold_snd_ge (data : List (String × Series)) :
    MIN_VALUE ≤ (minMaxFold data).2 :=
  outerFold_snd_mono data (MAX_VALUE, MIN_VALUE)

lemma innerFold_fst_le_snd (vs : List ℚ) (mm : ℚ × ℚ) (h : mm.1 ≤ mm.2) :
    (vs.foldl (fun mm v => (min v mm.1, max v mm.2)) mm).1 ≤
      (vs.foldl (fun mm v => (min v mm.1, max v mm.2)) mm).2 := by
  induction vs generalizing mm with
  | nil => exact h
  | cons v t ih =>
    rw [List.foldl_cons]
    exact ih (min v mm.1, max v mm.2)
      (le_trans (min_le_left v mm.1) (le_max_left v mm.2))

lemma innerFold_establish (vs : List ℚ) (mm : ℚ × ℚ) (h : vs ≠ []) :
    (vs.foldl (fun mm v => (min v mm.1, max v mm.2)) mm).1 ≤
      (vs.foldl (fun mm v => (min v mm.1, max v mm.2)) mm).2 := by
  cases vs with
  | nil => exact absurd rfl h
  | cons v t =>
    rw [List.foldl_cons]
    exact innerFold_fst_le_snd t (min v mm.1, max v mm.2)
      (le_trans (min_le_left v mm.1) (le_max_left v mm.2))

lemma outerFold_establish (data : List (String × Series)) (acc : ℚ × ℚ)
    (h : ∃ kv ∈ data, kv.2.vs ≠ []) :
    (data.foldl
      (fun acc kv => kv.2.vs.foldl (fun mm v => (min v mm.1, max v mm.2)) acc) acc).1 ≤
    (data.foldl
      (fun acc kv => kv.2.vs.foldl (fun mm v => (min v mm.1, max v mm.2)) acc) acc).2 := by
  induction data generalizing acc with
  | nil =>
    obtain ⟨kv, hkv, _⟩ := h
    cases hkv
  | cons kv t ih =>
    rw [List.foldl_cons]
    rcases h with ⟨kw, hkw, hne⟩
    rcases List.mem_cons.mp hkw with rfl | hmem
    · -- the witness series is the head: the pair is established here and preserved
      have hstep := innerFold_establish kw.2.vs acc hne
      clear ih
      induction t generalizing acc with
      | nil => exact hstep
      | cons kv2 t2 ih2 =>
        rw [List.foldl_cons]
        exact outerFold_fst_le_snd t2 _
          (innerFold_fst_le_snd kv2.2.vs _ hstep)
    · exact ih _ ⟨kw, hmem, hne⟩
  where
    outerFold_fst_le_snd (data : List (String × Series)) (acc : ℚ × ℚ)
        (h : acc.1 ≤ acc.2) :
        (data.foldl
          (fun acc kv => kv.2.vs.foldl (fun mm v => (min v mm.1, max v mm.2)) acc) acc).1 ≤
        (data.foldl
          (fun acc kv => kv.2.vs.foldl (fun mm v => (min v mm.1, max v mm.2)) acc) acc).2 := by
      induction data generalizing acc with
      | nil => exact h
      | cons kv t ih =>
        rw [List.foldl_cons]
        exact ih _ (innerFold_fst_le_snd kv.2.vs acc h)

lemma minMaxFold_fst_le_snd (data : List (String × Series))
    (h : ∃ kv ∈ data, kv.2.vs ≠ []) :
    (minMaxFold data).1 ≤ (minMaxFold data).2 :=
  outerFold_establish data (MAX_VALUE, MIN_VALUE) h

/-- C9: for every graph whose buffer holds at least one value (and a sane
tick budget), the raw maximum of the `getYAxisScaling` reduction is at least
`Number.MIN_VALUE` (its seed), and the returned axis upper bound is strictly
positive — even when every buffered value is negative. -/
theorem getYAxisScaling_positive (g : Graph)
    (hne : ∃ kv ∈ g.data, kv.2.vs ≠ [])
    (hticks : 2 ≤ g.options.maxTicks) :
    MIN_VALUE ≤ (minMaxFold g.data).2 ∧ 0 < (Graph.getYAxisScaling g).max := by
  have hs := minMaxFold_snd_ge g.data
  have hmm := minMaxFold_fst_le_snd g.data hne
  have hmaxpos : 0 < (minMaxFold g.data).2 := lt_of_lt_of_le MIN_VALUE_pos hs
  refine ⟨hs, ?_⟩
  unfold Graph.getYAxisScaling
  dsimp only
  split_ifs with h
  · exact getAxisScaling_max_pos _ _ _ (by linarith) (by linarith) hticks
  · have habs : |(minMaxFold g.data).1 - (minMaxFold g.data).2| =
        (minMaxFold g.data).2 - (minMaxFold g.data).1 := by
      rw [abs_of_nonpos (by linarith)]
      ring
    rw [habs] at h
    exact getAxisScaling_max_pos _ _ _ (by linarith) hmaxpos hticks

/-- Witness for C9: a graph whose only buffered value is `-5`; the reduction's
maximum stays at the positive seed and the axis upper bound is positive. -/
theorem getYAxisScaling_positive_witness :
    MIN_VALUE ≤ (minMaxFold [("a", ⟨[JVal.num 0], [-5], "c"⟩)]).2 ∧
    0 < (Graph.getYAxisScaling
      ⟨[("a", ⟨[JVal.num 0], [-5], "c"⟩)], JVal.nan, JVal.nan, DEFAULT_OPTIONS⟩).max :=
  getYAxisScaling_positive
    ⟨[("a", ⟨[JVal.num 0], [-5], "c"⟩)], JVal.nan, JVal.nan, DEFAULT_OPTIONS⟩
    ⟨("a", ⟨[JVal.num 0], [-5], "c"⟩), by simp, by simp⟩
    (by norm_num [DEFAULT_OPTIONS])

/-- C4 counterexample: the claim says the anchor is established on the very
first non-empty batch and never changed afterwards; but a first non-empty
batch whose samples carry no `"time"` entry leaves `beginGraphNowMs` NaN
(`NaN - 250` is NaN), so the next batch re-establishes the anchor, changing
both fields. -/
theorem graph_anchor_cex :
    ([[("a", JVal.num 1)]] : List (List (String × JVal))) ≠ [] ∧
    (Graph.add ⟨[], JVal.nan, JVal.nan, DEFAULT_OPTIONS⟩
      [[("a", JVal.num 1)]] 100).beginGraphNowMs = JVal.nan ∧
    (Graph.add (Graph.add ⟨[], JVal.nan, JVal.nan, DEFAULT_OPTIONS⟩
        [[("a", JVal.num 1)]] 100)
      [[("time", JVal.num 1000)]] 200).beginGraphNowMs = JVal.num 750 ∧
    JVal.nan ≠ JVal.num 750 := by
  refine ⟨by simp, ?_, ?_, by simp⟩
  · simp [Graph.add, addSample, addValue, sampleTime, JVal.sub, JVal.isNaN,
      DEFAULT_OPTIONS]
  · simp [Graph.add, addSample, addValue, sampleTime, JVal.sub, JVal.isNaN,
      DEFAULT_OPTIONS]
    norm_num

/-- C4 (amended): once `beginGraphNowMs` is a number, `add` leaves both anchor
fields unchanged; while it is NaN, a non-empty batch whose last sample has a
numeric time `q` establishes the anchor as `q - 250` paired with the current
wall clock. -/
theorem graph_anchor (g : Graph) (samples : List (List (String × JVal)))
    (nowWallMs : ℚ) :
    (g.beginGraphNowMs.isNaN = false →
      (Graph.add g samples nowWallMs).beginGraphNowMs = g.beginGraphNowMs ∧
      (Graph.add g samples nowWallMs).beginRenderTimeMs = g.beginRenderTimeMs) ∧
    (∀ (lastSample : List (String × JVal)) (q : ℚ),
      g.beginGraphNowMs.isNaN = true →
      samples.getLast? = some lastSample →
      sampleTime lastSample = JVal.num q →
      (Graph.add g samples nowWallMs).beginGraphNowMs = JVal.num (q - 250) ∧
      (Graph.add g samples nowWallMs).beginRenderTimeMs = JVal.num nowWallMs) := by
  constructor
  · intro h
    unfold Graph.add
    rw [if_neg (by simp [h])]
    exact ⟨rfl, rfl⟩
  · intro lastSample q hnan hlast hst
    have hne : samples.isEmpty = false := by
      cases samples with
      | nil => simp at hlast
      | cons a t => simp
    unfold Graph.add
    rw [if_pos (by simp [hnan, hne])]
    rw [hlast]
    constructor
    · show (sampleTime ((some lastSample).getD [])).sub (JVal.num 250) = _
      rw [Option.getD_some, hst]
      rfl
    · rfl

/-- Witness for C4 (amended): an anchored graph is untouched by a further
add; an unanchored graph is anchored by a timed batch. -/
theorem graph_anchor_witness :
    ((Graph.add ⟨[], JVal.num 5, JVal.num 7, DEFAULT_OPTIONS⟩
        [[("b", JVal.num 3)]] 111).beginGraphNowMs = JVal.num 5 ∧
      (Graph.add ⟨[], JVal.num 5, JVal.num 7, DEFAULT_OPTIONS⟩
        [[("b", JVal.num 3)]] 111).beginRenderTimeMs = JVal.num 7) ∧
    ((Graph.add ⟨[], JVal.nan, JVal.nan, DEFAULT_OPTIONS⟩
        [[("time", JVal.num 1000)]] 200).beginGraphNowMs = JVal.num (1000 - 250) ∧
      (Graph.add ⟨[], JVal.nan, JVal.nan, DEFAULT_OPTIONS⟩
        [[("time", JVal.num 1000)]] 200).beginRenderTimeMs = JVal.num 200) :=
  ⟨(graph_anchor ⟨[], JVal.num 5, JVal.num 7, DEFAULT_OPTIONS⟩
      [[("b", JVal.num 3)]] 111).1 rfl,
    (graph_anchor ⟨[], JVal.nan, JVal.nan, DEFAULT_OPTIONS⟩
      [[("time", JVal.num 1000)]] 200).2 [("time", JVal.num 1000)] 1000 rfl rfl
      (by simp [sampleTime])⟩

lemma drop_takeWhile_length {α : Type} (p : α → Bool) (l : List α) :
    l.drop (l.takeWhile p).length = l.dropWhile p := by
  induction l with
  | nil => rfl
  | cons a t ih =>
    by_cases h : p a
    · simp [List.takeWhile_cons, List.dropWhile_cons, h, ih]
    · simp [List.takeWhile_cons, List.dropWhile_cons, h]

lemma pruneSeries_ts (windowMs : ℚ) (graphNowMs : JVal) (s : Series) :
    (pruneSeries windowMs graphNowMs s).ts =
      s.ts.dropWhile (oldSample windowMs graphNowMs) := by
  unfold pruneSeries
  exact drop_takeWhile_length _ _

lemma oldSample_nan (windowMs : ℚ) (graphNowMs : JVal) :
    oldSample windowMs graphNowMs JVal.nan = false := by
  cases graphNowMs <;> rfl

lemma oldSample_mono {windowMs : ℚ} {graphNowMs : JVal} {a t : JVal}
    (hle : JVal.leB a t = true) (ha : oldSample windowMs graphNowMs a = false) :
    oldSample windowMs graphNowMs t = false := by
  cases a with
  | nan => simp [JVal.leB] at hle
  | num qa =>
    cases t with
    | nan => exact oldSample_nan _ _
    | num qt =>
      cases graphNowMs with
      | nan => rfl
      | num n =>
        simp only [JVal.leB, decide_eq_true_eq] at hle
        simp only [oldSample, JVal.add, JVal.ltB, decide_eq_false_iff_not, not_lt] at ha ⊢
        linarith

lemma mem_dropWhile_of_neg {α : Type} (p : α → Bool) (l : List α) (a : α)
    (hm : a ∈ l) (hp : p a = false) : a ∈ l.dropWhile p := by
  induction l with
  | nil => cases hm
  | cons c t ih =>
    by_cases h : p c
    · rcases List.mem_cons.mp hm with rfl | hmem
      · rw [h] at hp
        cases hp
      · simp only [List.dropWhile_cons, h, if_true]
        exact ih hmem
    · simp only [List.dropWhile_cons, h, if_false]
      simpa using hm

lemma not_old_of_pairwise (windowMs : ℚ) (graphNowMs : JVal) :
    ∀ ts : List JVal, List.Pairwise (fun a b => JVal.leB a b = true) ts →
      ∀ t ∈ ts.dropWhile (oldSample windowMs graphNowMs),
        oldSample windowMs graphNowMs t = false := by
  intro ts
  induction ts with
  | nil =>
    intro _ t ht
    simp at ht
  | cons a rest ih =>
    intro hpw t ht
    rw [List.pairwise_cons] at hpw
    obtain ⟨ha, hrest⟩ := hpw
    by_cases hpa : oldSample windowMs graphNowMs a
    · rw [List.dropWhile_cons, if_pos hpa] at ht
      exact ih hrest t ht
    · have hpa2 : oldSample windowMs graphNowMs a = false := Bool.eq_false_iff.mpr hpa
      rw [List.dropWhile_cons, if_neg hpa] at ht
      rcases List.mem_cons.mp ht with rfl | hmem
      · exact hpa2
      · exact oldSample_mono (ha t hmem) hpa2

lemma render_data (g : Graph) (wallNowMs : ℚ) (h : g.beginGraphNowMs.isNaN = false) :
    (Graph.render g wallNowMs).1.data =
      g.data.map fun kv =>
        (kv.1, pruneSeries g.options.windowMs (graphNow g wallNowMs) kv.2) := by
  unfold Graph.render
  rw [if_neg (by simp [h])]

/-- C5: after the pruning step of a render with an established anchor, a
series with monotonically non-decreasing timestamps has lost exactly its old
entries: the pruned series appears in the post-render state, none of its
remaining timestamps satisfies `t + windowMs + 250 < graphNowMs`, and every
timestamp not satisfying it is retained. -/
theorem render_prunes_window (g : Graph) (wallNowMs : ℚ) (k : String) (s : Series)
    (hmem : (k, s) ∈ g.data)
    (hanch : g.beginGraphNowMs.isNaN = false)
    (hsorted : List.Pairwise (fun a b => JVal.leB a b = true) s.ts) :
    (k, pruneSeries g.options.windowMs (graphNow g wallNowMs) s) ∈
      (Graph.render g wallNowMs).1.data ∧
    (∀ t ∈ (pruneSeries g.options.windowMs (graphNow g wallNowMs) s).ts,
      oldSample g.options.windowMs (graphNow g wallNowMs) t = false) ∧
    (∀ t ∈ s.ts,
      oldSample g.options.windowMs (graphNow g wallNowMs) t = false →
      t ∈ (pruneSeries g.options.windowMs (graphNow g wallNowMs) s).ts) := by
  refine ⟨?_, ?_, ?_⟩
  · rw [render_data g wallNowMs hanch]
    exact List.mem_map.mpr ⟨(k, s), hmem, rfl⟩
  · rw [pruneSeries_ts]
    exact not_old_of_pairwise _ _ s.ts hsorted
  · intro t ht hold
    rw [pruneSeries_ts]
    exact mem_dropWhile_of_neg _ _ t ht hold

/-- Witness for C5 at a concrete anchored graph with a two-point series. -/
theorem render_prunes_window_witness :
    (("a", (⟨[JVal.num 0, JVal.num 300], [1, 2], "x"⟩ : Series)) ∈
      (⟨[("a", ⟨[JVal.num 0, JVal.num 300], [1, 2], "x"⟩)],
        JVal.num 50, JVal.num 1000, DEFAULT_OPTIONS⟩ : Graph).data) ∧
    (("a", pruneSeries (5000 : ℚ)
        (graphNow (⟨[("a", ⟨[JVal.num 0, JVal.num 300], [1, 2], "x"⟩)],
          JVal.num 50, JVal.num 1000, DEFAULT_OPTIONS⟩ : Graph) 1000)
        ⟨[JVal.num 0, JVal.num 300], [1, 2], "x"⟩) ∈
      (Graph.render (⟨[("a", ⟨[JVal.num 0, JVal.num 300], [1, 2], "x"⟩)],
        JVal.num 50, JVal.num 1000, DEFAULT_OPTIONS⟩ : Graph) 1000).1.data) := by
  constructor
  · simp
  · exact (render_prunes_window
      (⟨[("a", ⟨[JVal.num 0, JVal.num 300], [1, 2], "x"⟩)],
        JVal.num 50, JVal.num 1000, DEFAULT_OPTIONS⟩ : Graph) 1000 "a"
      ⟨[JVal.num 0, JVal.num 300], [1, 2], "x"⟩
      (by simp) rfl
      (by norm_num [List.pairwise_cons, JVal.leB])).1

/-- C7: render draws something (returns true) exactly when the clock anchor
is established and some series is non-empty after pruning; equivalently it
returns false exactly when no anchor exists or every series prunes to empty. -/
theorem render_false_iff (g : Graph) (wallNowMs : ℚ) :
    (Graph.render g wallNowMs).2 = false ↔
      (g.beginGraphNowMs.isNaN = true ∨
        ∀ kv ∈ g.data,
          (pruneSeries g.options.windowMs (graphNow g wallNowMs) kv.2).ts = []) := by
  unfold Graph.render
  by_cases h : g.beginGraphNowMs.isNaN
  · simp [h]
  · rw [if_neg h]
    simp only [h, false_or]
    simp [List.all_eq_true, List.isEmpty_iff]

lemma foldl_time_of_no_time (sample : List (String × JVal))
    (h : ∀ p ∈ sample, p.1 ≠ "time") (acc : JVal) :
    sample.foldl (fun acc p => if p.1 = "time" then p.2 else acc) acc = acc := by
  induction sample generalizing acc with
  | nil => rfl
  | cons p t ih =>
    rw [List.foldl_cons, if_neg (h p (List.mem_cons_self p t))]
    exact ih (fun q hq => h q (List.mem_cons_of_mem p hq)) acc

lemma sampleTime_no_time (sample : List (String × JVal))
    (h : ∀ p ∈ sample, p.1 ≠ "time") : sampleTime sample = JVal.nan :=
  foldl_time_of_no_time sample h JVal.nan

lemma lookup_mem {k : String} {data : List (String × Series)} {s : Series}
    (h : data.lookup k = some s) : (k, s) ∈ data := by
  induction data with
  | nil => cases h
  | cons kv t ih =>
    obtain ⟨k0, s0⟩ := kv
    cases hbeq : (k == k0) with
    | true =>
      have hk : k = k0 := by simpa using hbeq
      simp only [List.lookup_cons, hbeq] at h
      obtain rfl := Option.some_injective _ h
      rw [hk]
      exact List.mem_cons_self (k0, s0) t
    | false =>
      simp only [List.lookup_cons, hbeq] at h
      exact List.mem_cons_of_mem _ (ih h)

lemma addValue_mem (colors : List String) (t : JVal) (data : List (String × Series))
    (name : String) (value : ℚ) :
    ∃ sr : Series, (name, sr) ∈ addValue colors t data name value ∧
      t ∈ sr.ts ∧ value ∈ sr.vs := by
  unfold addValue
  split_ifs with h
  · obtain ⟨s0, hs0⟩ := Option.isSome_iff_exists.mp h
    refine ⟨{ s0 with ts := s0.ts ++ [t], vs := s0.vs ++ [value] }, ?_, by simp, by simp⟩
    exact List.mem_map.mpr ⟨(name, s0), lookup_mem hs0, by simp⟩
  · refine ⟨⟨[t], [value], (colors.get? (data.length % colors.length)).getD ""⟩,
      ?_, by simp, by simp⟩
    exact List.mem_append_right _ (by simp)

lemma addValue_preserve (colors : List String) (t : JVal) (data : List (String × Series))
    (name : String) (value : ℚ) {k : String} {v0 : ℚ}
    (h : ∃ sr : Series, (k, sr) ∈ data ∧ JVal.nan ∈ sr.ts ∧ v0 ∈ sr.vs) :
    ∃ sr : Series, (k, sr) ∈ addValue colors t data name value ∧
      JVal.nan ∈ sr.ts ∧ v0 ∈ sr.vs := by
  obtain ⟨sr, hm, hts, hvs⟩ := h
  unfold addValue
  split_ifs with hsome
  · by_cases hk : k = name
    · refine ⟨{ sr with ts := sr.ts ++ [t], vs := sr.vs ++ [value] }, ?_, by simp [hts],
        by simp [hvs]⟩
      exact List.mem_map.mpr ⟨(k, sr), hm, by simp [hk]⟩
    · exact ⟨sr, List.mem_map.mpr ⟨(k, sr), hm, by simp [hk]⟩, hts, hvs⟩
  · exact ⟨sr, List.mem_append_left _ hm, hts, hvs⟩

/-- One step of the per-pair fold in `addSample` with a fixed timestamp. -/
def addPairStep (colors : List String) (t : JVal) (d : List (String × Series))
    (p : String × JVal) : List (String × Series) :=
  if p.1 = "time" then d
  else
    match p.2 with
    | JVal.nan => d
    | JVal.num v => addValue colors t d p.1 v

lemma addSample_eq_foldl (colors : List String) (data : List (String × Series))
    (sample : List (String × JVal)) :
    addSample colors data sample =
      sample.foldl (addPairStep colors (sampleTime sample)) data := by
  unfold addSample addPairStep
  rfl

lemma addPairStep_preserve (colors : List String) (t : JVal)
    (d : List (String × Series)) (p : String × JVal) {k : String} {v0 : ℚ}
    (h : ∃ sr : Series, (k, sr) ∈ d ∧ JVal.nan ∈ sr.ts ∧ v0 ∈ sr.vs) :
    ∃ sr : Series, (k, sr) ∈ addPairStep colors t d p ∧
      JVal.nan ∈ sr.ts ∧ v0 ∈ sr.vs := by
  unfold addPairStep
  split_ifs with htime
  · exact h
  · cases hp : p.2 with
    | nan => exact h
    | num v => exact addValue_preserve colors t d p.1 v h

lemma foldl_addPairStep_preserve (colors : List String) (t : JVal)
    (pairs : List (String × JVal)) {k : String} {v0 : ℚ} :
    ∀ d : List (String × Series),
      (∃ sr : Series, (k, sr) ∈ d ∧ JVal.nan ∈ sr.ts ∧ v0 ∈ sr.vs) →
      ∃ sr : Series, (k, sr) ∈ pairs.foldl (addPairStep colors t) d ∧
        JVal.nan ∈ sr.ts ∧ v0 ∈ sr.vs := by
  induction pairs with
  | nil => exact fun d h => h
  | cons p rest ih =>
    intro d h
    rw [List.foldl_cons]
    exact ih _ (addPairStep_preserve colors t d p h)

lemma foldl_addPairStep_target (colors : List String)
    (pairs : List (String × JVal)) (n : String) (v : ℚ)
    (hnt : ∀ p ∈ pairs, p.1 ≠ "time") (hmem : (n, JVal.num v) ∈ pairs) :
    ∀ d : List (String × Series),
      ∃ sr : Series, (n, sr) ∈ pairs.foldl (addPairStep colors JVal.nan) d ∧
        JVal.nan ∈ sr.ts ∧ v ∈ sr.vs := by
  induction pairs with
  | nil => cases hmem
  | cons p rest ih =>
    intro d
    rw [List.foldl_cons]
    rcases List.mem_cons.mp hmem with rfl | hrest
    · have hstep : addPairStep colors JVal.nan d (n, JVal.num v) =
          addValue colors JVal.nan d n v := by
        unfold addPairStep
        rw [if_neg (hnt (n, JVal.num v) (List.mem_cons_self _ _))]
      rw [hstep]
      exact foldl_addPairStep_preserve colors JVal.nan rest _
        (addValue_mem colors JVal.nan d n v)
    · exact ih (fun q hq => hnt q (List.mem_cons_of_mem p hq)) hrest _

lemma add_data (g : Graph) (samples : List (List (String × JVal))) (nowWallMs : ℚ) :
    (Graph.add g samples nowWallMs).data =
      samples.foldl (addSample g.options.colors) g.data := by
  unfold Graph.add
  split_ifs <;> rfl

/-- C10: a sample with no `"time"` pair gets timestamp NaN; each of its
non-time, non-NaN values is appended to its series with that NaN timestamp,
and the render prune loop never evicts a NaN-stamped entry (the age
comparison against NaN is false), so such entries survive every prune. -/
theorem add_timeless_sample (g : Graph) (sample : List (String × JVal))
    (n : String) (v : ℚ) (nowWallMs : ℚ)
    (hnt : ∀ p ∈ sample, p.1 ≠ "time")
    (hmem : (n, JVal.num v) ∈ sample) :
    sampleTime sample = JVal.nan ∧
    (∃ sr : Series, (n, sr) ∈ (Graph.add g [sample] nowWallMs).data ∧
      JVal.nan ∈ sr.ts ∧ v ∈ sr.vs) ∧
    (∀ (windowMs : ℚ) (graphNowMs : JVal) (s : Series),
      JVal.nan ∈ s.ts → JVal.nan ∈ (pruneSeries windowMs graphNowMs s).ts) := by
  have hst := sampleTime_no_time sample hnt
  refine ⟨hst, ?_, ?_⟩
  · rw [add_data]
    rw [show ([sample].foldl (addSample g.options.colors) g.data) =
        addSample g.options.colors g.data sample from rfl]
    rw [addSample_eq_foldl, hst]
    exact foldl_addPairStep_target g.options.colors sample n v hnt hmem g.data
  · intro windowMs graphNowMs s hmem2
    rw [pruneSeries_ts]
    exact mem_dropWhile_of_neg _ _ _ hmem2 (oldSample_nan windowMs graphNowMs)

/-- Witness for C10: adding the timeless sample `[{a: 1}]` to an empty graph. -/
theorem add_timeless_sample_witness :
    sampleTime [("a", JVal.num 1)] = JVal.nan ∧
    (∃ sr : Series,
      ("a", sr) ∈ (Graph.add ⟨[], JVal.nan, JVal.nan, DEFAULT_OPTIONS⟩
        [[("a", JVal.num 1)]] 0).data ∧
      JVal.nan ∈ sr.ts ∧ (1 : ℚ) ∈ sr.vs) ∧
    (∀ (windowMs : ℚ) (graphNowMs : JVal) (s : Series),
      JVal.nan ∈ s.ts → JVal.nan ∈ (pruneSeries windowMs graphNowMs s).ts) :=
  add_timeless_sample ⟨[], JVal.nan, JVal.nan, DEFAULT_OPTIONS⟩
    [("a", JVal.num 1)] "a" 1 0 (by simp) (by simp)
